import Mathlib

set_option autoImplicit false

/-!
Verification of the elm-language-server slice: the find-tests provider
(`src/providers/findTestsProvider.ts`), the process/path utilities
(`src/util/elmUtils.ts`), and the type-checker behaviours described in the
specification.  Pure fragments of the TypeScript source are embedded as
executable Lean definitions; the parts of the repository that are only
described by the specification (Type Checker, Type Inference Engine) are
modelled from the specification text and are marked as such in their doc
comments.
-/

/-- Embeds the source's `Type` variant (`src/compiler/typeInference.ts`,
described in the spec's data model): tagged variant with
Var / Unit / Tuple / Record / Function / Union / Unknown / InProgressBinding.
Record fields are an association list; the optional `Nat` is the row
variable.  (The Lean name `Ty` is used because `Type` is reserved.) -/
inductive Ty where
  | Var (id : Nat)
  | Unit
  | Tuple (tys : List Ty)
  | Record (fields : List (String × Ty)) (rowVar : Option Nat)
  | Function (params : List Ty) (ret : Ty)
  | Union (module : String) (name : String) (args : List Ty)
  | Unknown
  | InProgressBinding
deriving Repr

/-- The type `Basics.Int`. -/
def tyInt : Ty := Ty.Union "Basics" "Int" []

/-- The type `Basics.Bool`. -/
def tyBool : Ty := Ty.Union "Basics" "Bool" []

/-- Embeds the external syntax-tree node (`web-tree-sitter`'s `SyntaxNode`)
restricted to the operations the provider uses: node-kind string (`type`),
source text (`text`), start position (row and column) and the list of named
children. -/
inductive SyntaxNode where
  | mk (type : String) (text : String) (startRow : Nat) (startCol : Nat)
       (children : List SyntaxNode)
deriving Repr

/-- The node-kind string of a node. -/
def SyntaxNode.type : SyntaxNode → String
  | .mk t _ _ _ _ => t

/-- The source text of a node. -/
def SyntaxNode.text : SyntaxNode → String
  | .mk _ x _ _ _ => x

/-- The start row of a node (`startPosition.row`). -/
def SyntaxNode.startRow : SyntaxNode → Nat
  | .mk _ _ r _ _ => r

/-- The start column of a node (`startPosition.column`). -/
def SyntaxNode.startCol : SyntaxNode → Nat
  | .mk _ _ _ c _ => c

/-- The named children of a node. -/
def SyntaxNode.children : SyntaxNode → List SyntaxNode
  | .mk _ _ _ _ cs => cs

mutual
/-- Number of nodes in a subtree; used as recursion fuel for the
provider functions that walk into descendants. -/
def nodeSize : SyntaxNode → Nat
  | .mk _ _ _ _ cs => 1 + nodeListSize cs

/-- Total size of a list of subtrees. -/
def nodeListSize : List SyntaxNode → Nat
  | [] => 0
  | c :: cs => nodeSize c + nodeListSize cs
end

mutual
/-- Embeds `TreeUtils.descendantsOfType` (tree-sitter semantics): all nodes
of the subtree rooted at `n` — the node itself included — whose kind equals
`t`, in pre-order. -/
def nodeDescendantsOfType (n : SyntaxNode) (t : String) : List SyntaxNode :=
  match n with
  | .mk ty tx r c cs =>
    (if ty = t then [SyntaxNode.mk ty tx r c cs] else []) ++ listDescendantsOfType cs t

/-- `nodeDescendantsOfType` mapped over a list of subtrees. -/
def listDescendantsOfType (ns : List SyntaxNode) (t : String) : List SyntaxNode :=
  match ns with
  | [] => []
  | n :: rest => nodeDescendantsOfType n t ++ listDescendantsOfType rest t
end

/-- Embeds `TreeUtils.findFirstNamedChildOfType`: the first named child of
`node` whose kind equals `t`. -/
def findFirstNamedChildOfType (t : String) (node : SyntaxNode) : Option SyntaxNode :=
  node.children.find? (fun c => c.type == t)

/-- Embeds `EValueExpr`: a value reference expression with its `name`. -/
structure EValueExpr where
  node : SyntaxNode
  name : String
deriving Repr

/-- Embeds `EStringConstant`: a string literal expression with its raw
source `text` (quotes included). -/
structure EStringConstant where
  node : SyntaxNode
  text : String
deriving Repr

/-- Embeds `EListExpr`: a list literal with its element expressions. -/
structure EListExpr where
  node : SyntaxNode
  exprList : List SyntaxNode
deriving Repr

/-- Embeds `EFunctionCallExpr`: a function application with its `target`
(first named child) and argument expressions (remaining named children). -/
structure EFunctionCallExpr where
  node : SyntaxNode
  target : SyntaxNode
  args : List SyntaxNode
deriving Repr

/-- Embeds `ELetInExpr`: a let-in expression with its `body` (the final
named child, the tree-sitter field named `body`). -/
structure ELetInExpr where
  node : SyntaxNode
  body : SyntaxNode
deriving Repr

/-- Embeds the source's `Expression` union restricted to the five variants
the find-tests provider distinguishes; every other node kind is mapped to
`other`. -/
inductive Expression where
  | valueExpr (e : EValueExpr)
  | stringConstant (e : EStringConstant)
  | listExpr (e : EListExpr)
  | functionCallExpr (e : EFunctionCallExpr)
  | letInExpr (e : ELetInExpr)
  | other (n : SyntaxNode)
deriving Repr

/-- Embeds `mapSyntaxNodeToExpression` for the node kinds the provider
consults (`value_expr`, `string_constant_expr`, `list_expr`,
`function_call_expr`, `let_in_expr`); every other kind becomes `other`.
A `function_call_expr` without children or a `let_in_expr` without a body
cannot be produced by the grammar; they are mapped to `other`. -/
def mapSyntaxNodeToExpression (n : SyntaxNode) : Option Expression :=
  if n.type == "value_expr" then some (.valueExpr ⟨n, n.text⟩)
  else if n.type == "string_constant_expr" then some (.stringConstant ⟨n, n.text⟩)
  else if n.type == "list_expr" then some (.listExpr ⟨n, n.children⟩)
  else if n.type == "function_call_expr" then
    match n.children with
    | target :: args => some (.functionCallExpr ⟨n, target, args⟩)
    | [] => some (.other n)
  else if n.type == "let_in_expr" then
    match n.children.getLast? with
    | some b => some (.letInExpr ⟨n, b⟩)
    | none => some (.other n)
  else some (.other n)

/-- Embeds `mapExpr` at key `FunctionCallExpr`. -/
def asFunctionCallExpr : Expression → Option EFunctionCallExpr
  | .functionCallExpr e => some e
  | _ => none

/-- Embeds `mapExpr` at key `LetInExpr`. -/
def asLetInExpr : Expression → Option ELetInExpr
  | .letInExpr e => some e
  | _ => none

/-- Embeds `mapExpr` at key `ValueExpr`. -/
def asValueExpr : Expression → Option EValueExpr
  | .valueExpr e => some e
  | _ => none

/-- Embeds `mapExpr` at key `StringConstant`. -/
def asStringConstant : Expression → Option EStringConstant
  | .stringConstant e => some e
  | _ => none

/-- Embeds `mapExpr` at key `ListExpr`. -/
def asListExpr : Expression → Option EListExpr
  | .listExpr e => some e
  | _ => none

/-- Embeds `findExpr("FunctionCallExpr", node)`: the node itself when it is
a `function_call_expr`, otherwise the first descendant of that kind, mapped
to an expression. -/
def findFunctionCallExpr (node : Option SyntaxNode) : Option EFunctionCallExpr :=
  match node with
  | none => none
  | some n =>
    let m := if n.type == "function_call_expr" then some n
             else (nodeDescendantsOfType n "function_call_expr").head?
    (m.bind mapSyntaxNodeToExpression).bind asFunctionCallExpr

/-- Embeds `findExpr("ValueExpr", node)`. -/
def findValueExpr (node : Option SyntaxNode) : Option EValueExpr :=
  match node with
  | none => none
  | some n =>
    let m := if n.type == "value_expr" then some n
             else (nodeDescendantsOfType n "value_expr").head?
    (m.bind mapSyntaxNodeToExpression).bind asValueExpr

/-- Embeds `findExpr("ListExpr", node)`. -/
def findListExpr (node : Option SyntaxNode) : Option EListExpr :=
  match node with
  | none => none
  | some n =>
    let m := if n.type == "list_expr" then some n
             else (nodeDescendantsOfType n "list_expr").head?
    (m.bind mapSyntaxNodeToExpression).bind asListExpr

/-- Embeds `findChildExpr("LetInExpr", node)`: the node itself when it is a
`let_in_expr`, otherwise its first named child of that kind, mapped to an
expression. -/
def findChildLetInExpr (node : Option SyntaxNode) : Option ELetInExpr :=
  match node with
  | none => none
  | some n =>
    let m := if n.type == "let_in_expr" then some n
             else findFirstNamedChildOfType "let_in_expr" n
    (m.bind mapSyntaxNodeToExpression).bind asLetInExpr

/-- Embeds `findAllExprs("StringConstant", node)`: every descendant of kind
`string_constant_expr` mapped to its expression. -/
def findAllStringConstants (node : Option SyntaxNode) : Option (List EStringConstant) :=
  match node with
  | none => none
  | some n =>
    some ((nodeDescendantsOfType n "string_constant_expr").filterMap
      (fun d => (mapSyntaxNodeToExpression d).bind asStringConstant))

/-- Embeds `ISourceFile` restricted to the fields the provider reads:
`uri`, `isTestFile` and the syntax `tree`. -/
structure SourceFileData where
  uri : String
  isTestFile : Bool
  tree : SyntaxNode

/-- Abstract interface of the Type Checker as consumed by the find-tests
provider (`getTypeChecker()` in the spec): `findType`, `typeToString`,
`getQualifierForName` and `findImportModuleNameNodes` are the operations
the provider calls; the provider is verified for every implementation. -/
structure TypeChecker where
  findType : SyntaxNode → Ty
  typeToString : Ty → String
  getQualifierForName : SourceFileData → String → String → Option String
  findImportModuleNameNodes : String → SourceFileData → List SyntaxNode

/-- First test at `findTestFunctionCall`'s line 101: the found call's type
is a `Function` whose return type is the union `Test.Internal.Test`. -/
def isTestFunctionType : Ty → Bool
  | .Function _ (.Union m n _) => m == "Test.Internal" && n == "Test"
  | _ => false

/-- Second test at `findTestFunctionCall`'s line 110: the found call's type
is the union `Test.Internal.Test` itself. -/
def isTestUnionType : Ty → Bool
  | .Union m n _ => m == "Test.Internal" && n == "Test"
  | _ => false

/-- Embeds `findTestFunctionCall`, fuelled: the recursion through a
`let_in_expr` body descends strictly into the subtree, so a fuel of
`nodeSize node` always suffices (supplied by the un-fuelled wrapper).
When the node is (or contains as first named child) a let-in expression,
recurse into its body; otherwise find the first function-call expression
and keep it exactly when its type is `Test.Internal.Test` or a function
returning `Test.Internal.Test`. -/
def findTestFunctionCallF : Nat → SyntaxNode → TypeChecker → Option EFunctionCallExpr
  | 0, _, _ => none
  | fuel + 1, node, typeChecker =>
    match findChildLetInExpr (some node) with
    | some letIn => findTestFunctionCallF fuel letIn.body typeChecker
    | none =>
      match findFunctionCallExpr (some node) with
      | none => none
      | some call =>
        let t : Ty := typeChecker.findType call.node
        if isTestFunctionType t then some call
        else if isTestUnionType t then some call
        else none

/-- Embeds `findTestFunctionCall` (un-fuelled interface). -/
def findTestFunctionCall (node : SyntaxNode) (typeChecker : TypeChecker) :
    Option EFunctionCallExpr :=
  findTestFunctionCallF (nodeSize node) node typeChecker

/-- Embeds `funName.lastIndexOf(".")` / `funName.substring(0, dot)` of
`isTestSuite`: the qualifier part before the last dot, when there is one
(`substring(0, lastIndexOf("."))`). -/
def dotQualifier (s : String) : Option String :=
  let rev := s.data.reverse
  if rev.any (fun c => c == '.') then
    some ⟨((rev.dropWhile (fun c => c ≠ '.')).drop 1).reverse⟩
  else none

/-- Embeds the provider's private `isTestSuite` check: the called name is
`<qualifier>describe` and the first import matching its qualifier has
module name `Test` (an unqualified `describe` defaults to module `Test`). -/
def isTestSuiteCall (call : EFunctionCallExpr) (sourceFile : SourceFileData)
    (typeChecker : TypeChecker) : Bool :=
  let funName : Option String := (findValueExpr (some call.target)).map (·.name)
  let pfx : Option String :=
    match funName with
    | none => none
    | some fn => dotQualifier fn
  let qualifier : String :=
    match pfx with
    | some p => (typeChecker.getQualifierForName sourceFile p "describe").getD ""
    | none => ""
  let moduleName : Option String :=
    match pfx with
    | some p => ((typeChecker.findImportModuleNameNodes p sourceFile).head?).map (·.text)
    | none => some "Test"
  funName == some (qualifier ++ "describe") && moduleName == some "Test"

/-- Embeds `findFirstStringArg`: the first argument whose type renders as
`String`. -/
def findFirstStringArg (call : EFunctionCallExpr) (typeChecker : TypeChecker) :
    Option SyntaxNode :=
  call.args.find? (fun arg => typeChecker.typeToString (typeChecker.findType arg) == "String")

/-- One JSON string escape (`JSON.parse` semantics): the character allowed
after a backslash and its decoded value.  `\u` escapes are not modelled. -/
def jsonEscapeChar (c : Char) : Option Char :=
  if c = '"' then some '"'
  else if c = '\\' then some '\\'
  else if c = '/' then some '/'
  else if c = 'n' then some '\n'
  else if c = 't' then some '\t'
  else if c = 'r' then some '\r'
  else if c = 'b' then some (Char.ofNat 8)
  else if c = 'f' then some (Char.ofNat 12)
  else none

/-- Body of a JSON string literal after its opening quote: decode up to the
closing quote, requiring the input to end there. -/
def jsonStringBody : Nat → List Char → Option (List Char)
  | 0, _ => none
  | _, [] => none
  | fuel + 1, c :: rest =>
    if c = '"' then (if rest = [] then some [] else none)
    else if c = '\\' then
      match rest with
      | [] => none
      | e :: rest2 =>
        (jsonEscapeChar e).bind fun ec =>
          (jsonStringBody fuel rest2).map fun tail => ec :: tail
    else (jsonStringBody fuel rest).map fun tail => c :: tail

/-- `JSON.parse` restricted to string literals (the only use the provider
makes of it): a double-quoted, escape-decoded string.  A parse failure — a
thrown exception in the source — is `none`. -/
def jsonParseString (s : String) : Option String :=
  match s.data with
  | '"' :: rest => (jsonStringBody (rest.length + 1) rest).map String.mk
  | _ => none

/-- Embeds `stringLiteralToLabel`: `String(JSON.parse(literal))`; the
exception `JSON.parse` may throw is modelled as `none`. -/
def stringLiteralToLabel (literal : String) : Option String :=
  jsonParseString literal

/-- Embeds `labelParts?.map(l => stringLiteralToLabel(l))`: decode every
part; a thrown decode exception (modelled `none`) aborts the whole list. -/
def decodeLabelList : List String → Option (List String)
  | [] => some []
  | t :: ts =>
    match stringLiteralToLabel t, decodeLabelList ts with
    | some l, some ls => some (l :: ls)
    | _, _ => none

/-- Embeds the protocol's `TestSuite`: label, optional nested suites, file
uri and start position (`line`, `character`). -/
inductive TestSuite where
  | mk (label : String) (tests : Option (List TestSuite)) (file : String)
       (position : Nat × Nat)

/-- The label of a test suite. -/
def TestSuite.label : TestSuite → String
  | .mk l _ _ _ => l

/-- The nested suites of a test suite. -/
def TestSuite.tests : TestSuite → Option (List TestSuite)
  | .mk _ t _ _ => t

/-- The file uri of a test suite. -/
def TestSuite.file : TestSuite → String
  | .mk _ _ f _ => f

/-- The start position of a test suite. -/
def TestSuite.position : TestSuite → Nat × Nat
  | .mk _ _ _ p => p

/-- The provider's local `labelParts`: every string-constant part of the
first `String`-typed argument, decoded; `none` both when there is no such
argument and when decoding throws. -/
def suiteLabelParts (call : EFunctionCallExpr) (typeChecker : TypeChecker) :
    Option (List String) :=
  (findAllStringConstants (findFirstStringArg call typeChecker)).bind fun es =>
    decodeLabelList (es.map (·.text))

/-- The provider's local `label`: defined exactly when `labelParts`
contains exactly one part. -/
def suiteLabel (call : EFunctionCallExpr) (typeChecker : TypeChecker) :
    Option String :=
  match suiteLabelParts call typeChecker with
  | some parts => if parts.length == 1 then parts.head? else none
  | none => none

mutual
/-- Embeds `findTestSuite`, fuelled (nested suites live strictly inside the
call node, so `nodeSize call.node` always suffices; the wrapper supplies
it).  A suite is produced only when the first `String`-typed argument
decodes to exactly one non-empty label part (JavaScript truthiness of
`label`); a `describe` call additionally collects the nested suites of its
second, list-literal argument. -/
def findTestSuiteF : Nat → Option EFunctionCallExpr → SourceFileData → TypeChecker →
    Option TestSuite
  | _, none, _, _ => none
  | 0, some _, _, _ => none
  | fuel + 1, some call, sourceFile, typeChecker =>
    let position : Nat × Nat := (call.node.startRow, call.node.startCol)
    let file : String := sourceFile.uri
    match suiteLabel call typeChecker with
    | none => none
    | some lbl =>
      if lbl == "" then none
      else if isTestSuiteCall call sourceFile typeChecker then
        match findListExpr (call.args.get? 1) with
        | none => none
        | some listArg =>
          let tests : List TestSuite :=
            (findTestSuiteListF fuel
              (listArg.exprList.map (fun e => findTestFunctionCallF fuel e typeChecker))
              sourceFile typeChecker).filterMap id
          some (TestSuite.mk lbl (some tests) file position)
      else some (TestSuite.mk lbl none file position)

/-- `findTestSuiteF` mapped over the calls found in a `describe`'s list
argument (the source's `.map(call => findTestSuite(call, ...))`). -/
def findTestSuiteListF : Nat → List (Option EFunctionCallExpr) → SourceFileData →
    TypeChecker → List (Option TestSuite)
  | 0, _, _, _ => []
  | _, [], _, _ => []
  | fuel + 1, c :: cs, sourceFile, typeChecker =>
    findTestSuiteF fuel c sourceFile typeChecker ::
      findTestSuiteListF fuel cs sourceFile typeChecker
end

/-- Embeds `findTestSuite` (un-fuelled interface). -/
def findTestSuite (call : Option EFunctionCallExpr) (sourceFile : SourceFileData)
    (typeChecker : TypeChecker) : Option TestSuite :=
  findTestSuiteF (match call with | some c => nodeSize c.node | none => 1)
    call sourceFile typeChecker

/-- Embeds `TreeUtils.findAllTopLevelFunctionDeclarations` (repository code
outside the provided slice): the tree's top-level children of kind
`value_declaration`. -/
def findAllTopLevelFunctionDeclarations (tree : SyntaxNode) :
    Option (List SyntaxNode) :=
  some (tree.children.filter (fun c => c.type == "value_declaration"))

/-- Embeds `IProgram` as consumed by the provider: workspace root path,
the Forest's source files, and the Program's type checker. -/
structure ProgramModel where
  rootPath : String
  files : List SourceFileData
  typeChecker : TypeChecker

/-- Embeds `Program.getForest(includeTestFiles)`: the Forest's files,
test files excluded unless requested. -/
def ProgramModel.getForest (p : ProgramModel) (includeTests : Bool) :
    List SourceFileData :=
  if includeTests then p.files else p.files.filter (fun sf => !sf.isTestFile)

/-- Embeds `findAllTestSuites`: over every test file of the Forest, map
each top-level function declaration through `findTestFunctionCall` and
`findTestSuite` and keep the defined results. -/
def findAllTestSuites (program : ProgramModel) : List TestSuite :=
  let typeChecker := program.typeChecker
  ((program.getForest true).filter (fun sourceFile => sourceFile.isTestFile)).flatMap
    (fun sourceFile =>
      (((findAllTopLevelFunctionDeclarations sourceFile.tree).getD []).map
        (fun top =>
          findTestSuite (findTestFunctionCall top typeChecker) sourceFile typeChecker)).filterMap id)

/-- Embeds `NoWorkspaceContainsError` (`src/util/noWorkspaceContainsError.ts`,
outside the provided slice): a named error carrying the offending URI. -/
structure NoWorkspaceContainsError where
  projectFolder : String
deriving Repr, DecidableEq

/-- Outcome of the `FindTestsRequest` handler as seen by the caller:
either a response with the suites, or the `ResponseError` built in the
handler's catch block. -/
inductive FindTestsResult where
  | response (suites : List TestSuite)
  | genericError (code : Nat) (message : String)

/-- Embeds the body of `FindTestsProvider.register`'s `try` block: find the
Program whose root path string-equals the project folder; when none
matches, throw `NoWorkspaceContainsError` carrying the folder. -/
def findTestsInner (elmWorkspaces : List ProgramModel) (projectFolder : String) :
    Except NoWorkspaceContainsError (List TestSuite) :=
  match elmWorkspaces.find? (fun program => program.rootPath == projectFolder) with
  | some program => .ok (findAllTestSuites program)
  | none => .error ⟨projectFolder⟩

/-- Embeds the whole `FindTestsRequest` handler: the `try` block above with
its `catch`, which converts every thrown error — the named
`NoWorkspaceContainsError` included — into `ResponseError(13, "Error
finding tests")`. -/
def onFindTestsRequest (elmWorkspaces : List ProgramModel) (projectFolder : String) :
    FindTestsResult :=
  match findTestsInner elmWorkspaces projectFolder with
  | .ok suites => .response suites
  | .error _ => .genericError 13 "Error finding tests"

/-- Trailing `/` characters of a path, removed (the normalization Node's
`path.join` applies at the segment boundary). -/
def dropTrailingSlashChars (l : List Char) : List Char :=
  (l.reverse.dropWhile (fun c => c == '/')).reverse

/-- Embeds Node's `path.join(a, b)` for the posix paths `isTestFile`
joins — no `.`/`..` segment normalization is modelled: the segments are
joined with a single `/`, duplicate separators at the boundary collapsed. -/
def pathJoin (a b : String) : String :=
  if a.data = [] then b
  else
    let trimmed := dropTrailingSlashChars a.data
    if trimmed = [] then ⟨'/' :: b.data⟩
    else ⟨trimmed ++ '/' :: b.data⟩

/-- Embeds `isTestFile` (`src/util/elmUtils.ts`): the filename starts with
`path.join(rootPath, "tests")`.  JavaScript's `String.startsWith` is the
character-sequence prefix test. -/
def isTestFile (filename : String) (rootPath : String) : Bool :=
  let testFolder := pathJoin rootPath "tests"
  if testFolder.data.isPrefixOf filename.data then true
  else false

/-- Embeds Node's `ExecException` restricted to the fields `execCmd`
reads: `message` and the exit `code`. -/
structure ExecError where
  message : String
  code : Option Int
deriving Repr, DecidableEq

/-- State of `execCmd`'s returned promise after the exit handler ran:
still unsettled, resolved with the output, or rejected with the error. -/
inductive PromiseState where
  | pending
  | resolved (stdout : String) (stderr : String)
  | rejected (err : ExecError)
deriving Repr, DecidableEq

/-- One `execCmd` invocation observed at the moment the child process
exits: the options that were passed, whether `kill()` had been called on
the handle (`wasKilledByUs`), the platform flag, and the exit data the
callback receives. -/
structure ExecCmdScenario where
  cmd : String
  showMessageOnError : Bool
  notFoundText : Option String
  isWindows : Bool
  wasKilledByUs : Bool
  error : Option ExecError
  stdout : String
  stderr : String

/-- What `handleExit` leaves behind: the promise's state, the error
messages shown on the connection, and the handle's `isRunning` flag. -/
structure ExitOutcome where
  promise : PromiseState
  shownMessages : List String
  isRunning : Bool
deriving Repr, DecidableEq

/-- The Windows-specific `'<cmd>' is not recognized` fragment `handleExit`
searches the error message for. -/
def cmdNotRecognizedMsg (cmdName : String) : String :=
  String.singleton (Char.ofNat 39) ++ cmdName ++
    String.singleton (Char.ofNat 39) ++ " is not recognized"

/-- JavaScript's `String.includes`: the needle occurs as a contiguous
subsequence of the haystack. -/
def charsInclude (hay needle : List Char) : Bool :=
  (List.range (hay.length + 1)).any (fun i => needle.isPrefixOf (hay.drop i))

/-- Embeds `handleExit` of `execCmd`: when `kill()` was called nothing is
settled; otherwise an error either rejects the promise or — with
`showMessageOnError` — shows a message (the command-not-found text when the
error matches, the raw message otherwise) and settles nothing; a clean exit
resolves with the output.  A `notFoundText` left undefined renders as the
string `"undefined"` inside the template literal, as in JavaScript. -/
def handleExit (sc : ExecCmdScenario) : ExitOutcome :=
  if sc.wasKilledByUs then ⟨.pending, [], false⟩
  else
    match sc.error with
    | some err =>
      if sc.showMessageOnError then
        let cmdName := sc.cmd.takeWhile (fun c => c ≠ ' ')
        let cmdWasNotFound :=
          (sc.isWindows && charsInclude err.message.data (cmdNotRecognizedMsg cmdName).data) ||
          (!sc.isWindows && err.code == some 127)
        if cmdWasNotFound then
          ⟨.pending,
            [cmdName ++ " is not available in your path. " ++
              (match sc.notFoundText with | some t => t | none => "undefined")],
            false⟩
        else ⟨.pending, [err.message], false⟩
      else ⟨.rejected err, [], false⟩
    | none => ⟨.resolved sc.stdout sc.stderr, [], false⟩

/-- Modelled from the spec: the Type Inference Engine behind `findType`
(`src/compiler/typeChecker.ts` is not in the provided slice).  Locating a
node's enclosing top-level declaration and running inference over the whole
declaration are kept abstract: `inferDeclaration` returns the Type computed
for every sub-node visited.  Nodes are identified by the stable node
identity the spec's TypeCache is keyed by. -/
structure InferenceEngine where
  enclosingDeclaration : Nat → Nat
  inferDeclaration : Nat → List (Nat × Ty)

/-- Modelled from the spec: the per-Program Type Checker state — the
TypeCache plus a counter of inference runs (observing "performs no new
inference work"). -/
structure CheckerState where
  typeCache : List (Nat × Ty)
  inferenceRuns : Nat

/-- First match of a node in the TypeCache. -/
def cacheLookup (cache : List (Nat × Ty)) (n : Nat) : Option Ty :=
  (cache.find? (fun e => e.1 == n)).map (·.2)

/-- Modelled from the spec: `findType(node)` — check the TypeCache; on a
miss, run inference over the node's whole enclosing declaration, populate
the cache for every sub-node visited (the requested node among them) and
return the requested node's Type (`Unknown` when inference did not reach
it). -/
def TypeCheckerModel.findType (eng : InferenceEngine) (s : CheckerState) (n : Nat) :
    Ty × CheckerState :=
  match cacheLookup s.typeCache n with
  | some t => (t, s)
  | none =>
    let visited := eng.inferDeclaration (eng.enclosingDeclaration n)
    let t := (cacheLookup visited n).getD Ty.Unknown
    (t, ⟨(n, t) :: visited ++ s.typeCache, s.inferenceRuns + 1⟩)

/-- Modelled from the spec: the Expression variant of the inference
engine's input, restricted to the node kinds the verified scenarios use
(numeric literal, value reference, if-expression, binary operator
application, function call). -/
inductive Expr where
  | intLit (n : Int)
  | varRef (name : String)
  | ifExpr (cond thenE elseE : Expr)
  | binOp (op : String) (lhs rhs : Expr)
  | callExpr (target : Expr) (args : List Expr)

/-- A substitution: type-variable ids bound to Types (triangular — bound
Types may mention variables bound further on). -/
def Subst : Type := List (Nat × Ty)

/-- The binding of a variable in a substitution, if any. -/
def substLookup (s : Subst) (v : Nat) : Option Ty :=
  (List.find? (fun e => e.1 == v) s).map (·.2)

/-- Follow variable links in the substitution until the head of the Type
is no longer a bound variable (fuelled; bindings are acyclic thanks to the
occurs check, so `length + 1` suffices). -/
def resolveHead : Nat → Subst → Ty → Ty
  | 0, _, t => t
  | fuel + 1, s, t =>
    match t with
    | .Var v =>
      match substLookup s v with
      | some t' => resolveHead fuel s t'
      | none => .Var v
    | t => t

mutual
/-- Apply a substitution everywhere in a Type (fuelled deep application). -/
def applySubst : Nat → Subst → Ty → Ty
  | 0, _, t => t
  | fuel + 1, s, t =>
    match resolveHead (fuel + 1) s t with
    | .Var v => .Var v
    | .Unit => .Unit
    | .Tuple ts => .Tuple (applySubstList fuel s ts)
    | .Record fields row => .Record (applySubstFields fuel s fields) row
    | .Function ps ret => .Function (applySubstList fuel s ps) (applySubst fuel s ret)
    | .Union m n args => .Union m n (applySubstList fuel s args)
    | .Unknown => .Unknown
    | .InProgressBinding => .InProgressBinding

/-- `applySubst` over a list of Types. -/
def applySubstList : Nat → Subst → List Ty → List Ty
  | 0, _, ts => ts
  | _, _, [] => []
  | fuel + 1, s, t :: ts => applySubst fuel s t :: applySubstList fuel s ts

/-- `applySubst` over record fields. -/
def applySubstFields : Nat → Subst → List (String × Ty) → List (String × Ty)
  | 0, _, fs => fs
  | _, _, [] => []
  | fuel + 1, s, (n, t) :: fs => (n, applySubst fuel s t) :: applySubstFields fuel s fs
end

/-- Occurs check: the variable occurs in the Type once the substitution is
applied. -/
def occursIn (fuel : Nat) (s : Subst) (v : Nat) (t : Ty) : Bool :=
  match applySubst fuel s t with
  | u => occursPlain v u
where
  occursPlain (v : Nat) : Ty → Bool
    | .Var w => v == w
    | .Unit => false
    | .Tuple ts => occursList v ts
    | .Record fs _ => occursFields v fs
    | .Function ps r => occursList v ps || occursPlain v r
    | .Union _ _ args => occursList v args
    | .Unknown => false
    | .InProgressBinding => false
  occursList (v : Nat) : List Ty → Bool
    | [] => false
    | t :: ts => occursPlain v t || occursList v ts
  occursFields (v : Nat) : List (String × Ty) → Bool
    | [] => false
    | (_, t) :: fs => occursPlain v t || occursFields v fs

mutual
/-- Modelled from the spec: substitution-based unification.  Two
incompatible shapes fail (`none`); `Unknown` unifies with everything
(inference proceeds optimistically around unresolved pieces); a variable is
bound after an occurs check. -/
def unify : Nat → Subst → Ty → Ty → Option Subst
  | 0, _, _, _ => none
  | fuel + 1, s, a, b =>
    match resolveHead (s.length + 1) s a, resolveHead (s.length + 1) s b with
    | .Var x, .Var y => if x == y then some s else some ((x, .Var y) :: s)
    | .Var x, t => if occursIn (s.length + 1) s x t then none else some ((x, t) :: s)
    | t, .Var y => if occursIn (s.length + 1) s y t then none else some ((y, t) :: s)
    | .Unknown, _ => some s
    | _, .Unknown => some s
    | .Unit, .Unit => some s
    | .Tuple ts, .Tuple us => unifyList fuel s ts us
    | .Function ps r, .Function qs r2 =>
      (unifyList fuel s ps qs).bind fun s' => unify fuel s' r r2
    | .Union m n args, .Union m' n' args' =>
      if m == m' && n == n' then unifyList fuel s args args' else none
    | _, _ => none

/-- Unify two lists of Types pointwise (failing on a length mismatch). -/
def unifyList : Nat → Subst → List Ty → List Ty → Option Subst
  | _, s, [], [] => some s
  | 0, _, _, _ => none
  | fuel + 1, s, t :: ts, u :: us =>
    (unify fuel s t u).bind fun s' => unifyList fuel s' ts us
  | _, _, _, _ => none
end

/-- The environment inference reads variable types from. -/
def InferEnv : Type := List (String × Ty)

/-- The binding of a name in the environment, if any. -/
def envLookup (env : InferEnv) (n : String) : Option Ty :=
  (List.find? (fun e => e.1 == n) env).map (·.2)

/-- Inference state: the next fresh type-variable id and the substitution
accumulated so far. -/
structure InferState where
  fresh : Nat
  subst : Subst

/-- The Type slot id reserved for the binding currently being inferred:
the spec's InProgressBinding placeholder stands for this variable. -/
def selfBindingVar : Nat := 0

mutual
/-- Modelled from the spec: `infer(node, context)`.  Numeric literals are
defaulted to `Int` (the spec's verified scenarios constrain them to `Int`);
an unresolvable identifier yields `Unknown`; a reference that resolves to
the InProgressBinding placeholder is treated as the binding's own
not-yet-known type (the reserved self variable), not a cycle error; `<=`
and `-` carry their defaulted `Int` operator types; an if-expression
unifies its condition with `Bool` and its branches together; a call unifies
the target's type with a function type built from the argument types and a
fresh result variable. -/
def inferExpr : Nat → InferEnv → InferState → Expr → Option (Ty × InferState)
  | 0, _, _, _ => none
  | fuel + 1, env, st, e =>
    match e with
    | .intLit _ => some (tyInt, st)
    | .varRef n =>
      match envLookup env n with
      | some .InProgressBinding => some (.Var selfBindingVar, st)
      | some t => some (t, st)
      | none => some (.Unknown, st)
    | .binOp op lhs rhs =>
      (inferExpr fuel env st lhs).bind fun (tl, st1) =>
      (inferExpr fuel env st1 rhs).bind fun (tr, st2) =>
      if op == "<=" || op == "<" || op == ">" || op == ">=" then
        (unify (fuel + 1) st2.subst tl tyInt).bind fun s1 =>
        (unify (fuel + 1) s1 tr tyInt).map fun s2 =>
        (tyBool, { st2 with subst := s2 })
      else if op == "-" || op == "+" || op == "*" then
        (unify (fuel + 1) st2.subst tl tyInt).bind fun s1 =>
        (unify (fuel + 1) s1 tr tyInt).map fun s2 =>
        (tyInt, { st2 with subst := s2 })
      else some (.Unknown, st2)
    | .ifExpr cond thenE elseE =>
      (inferExpr fuel env st cond).bind fun (tc, st1) =>
      (unify (fuel + 1) st1.subst tc tyBool).bind fun s1 =>
      (inferExpr fuel env { st1 with subst := s1 } thenE).bind fun (tt, st2) =>
      (inferExpr fuel env st2 elseE).bind fun (te, st3) =>
      (unify (fuel + 1) st3.subst tt te).map fun s2 =>
      (applySubst (fuel + 1) s2 tt, { st3 with subst := s2 })
    | .callExpr target args =>
      (inferExpr fuel env st target).bind fun (tf, st1) =>
      (inferExprList fuel env st1 args).bind fun (tas, st2) =>
      let rv := st2.fresh
      (unify (fuel + 1) st2.subst tf (.Function tas (.Var rv))).map fun s' =>
      (.Var rv, ⟨rv + 1, s'⟩)

/-- `inferExpr` over an argument list. -/
def inferExprList : Nat → InferEnv → InferState → List Expr →
    Option (List Ty × InferState)
  | _, _, st, [] => some ([], st)
  | 0, _, _, _ => none
  | fuel + 1, env, st, e :: es =>
    (inferExpr fuel env st e).bind fun (t, st1) =>
    (inferExprList fuel env st1 es).map fun (ts, st2) =>
    (t :: ts, st2)
end

/-- Fuel used to run the modelled engine on the verified scenarios. -/
def engineFuel : Nat := 64

/-- Modelled from the spec: the environment a binding's body is inferred
under — the binding's own Type slot pre-seeded with the InProgressBinding
placeholder, each parameter bound to a fresh type variable. -/
def bindingEnv (fname : String) (params : List String) : InferEnv :=
  (fname, Ty.InProgressBinding) ::
    (params.enum.map fun (i, p) => (p, Ty.Var (i + 1)))

/-- Modelled from the spec: inference of a recursive value binding
`fname params = body`.  The body is inferred under `bindingEnv`; the
binding's placeholder variable is then unified with the function type
assembled from the parameter variables and the body's Type, and the
resolved Type replaces the placeholder. -/
def inferBinding (fname : String) (params : List String) (body : Expr) : Option Ty :=
  let paramVars := params.enum.map fun (i, _) => Ty.Var (i + 1)
  let env := bindingEnv fname params
  let st0 : InferState := ⟨params.length + 1, []⟩
  (inferExpr engineFuel env st0 body).bind fun (bodyTy, st1) =>
  let fnTy := if params.isEmpty then bodyTy else Ty.Function paramVars bodyTy
  (unify engineFuel st1.subst (.Var selfBindingVar) fnTy).map fun s' =>
  applySubst engineFuel s' fnTy

/-- The body of the spec's self-reference scenario:
`if x <= 0 then 0 else f (x - 1)`. -/
def selfRecursiveBody : Expr :=
  .ifExpr (.binOp "<=" (.varRef "x") (.intLit 0))
    (.intLit 0)
    (.callExpr (.varRef "f") [.binOp "-" (.varRef "x") (.intLit 1)])

/-- Modelled from the spec: a type-signature expression as written in
source (`outer : something -> number`): a lowercase type-variable name, a
named constructor application, or an arrow. -/
inductive Anno where
  | var (name : String)
  | con (name : String) (args : List Anno)
  | arrow (dom : Anno) (cod : Anno)

/-- Modelled from the spec: the Type denoted by a lowercase name in a
signature.  The numeric class name `number` denotes
`Union("Basics","number",[])`; every other lowercase name is a type
variable, fresh per distinct name, numbered in traversal order. -/
def annoVarType (env : List String) (n : String) : Ty × List String :=
  if n = "number" then (Ty.Union "Basics" "number" [], env)
  else
    match env.indexOf? n with
    | some i => (Ty.Var i, env)
    | none => (Ty.Var env.length, env ++ [n])

mutual
/-- Modelled from the spec: conversion of a signature to a Type, threading
the list of type-variable names met so far.  Arrows are flattened into the
`Function` params list the way the engine's Types store them. -/
def annoToTypeAux : List String → Anno → Ty × List String
  | env, .var n => annoVarType env n
  | env, .con n args =>
    let (ts, env') := annoListToType env args
    (Ty.Union n n ts, env')
  | env, .arrow dom cod =>
    let (td, env1) := annoToTypeAux env dom
    let (tc, env2) := annoToTypeAux env1 cod
    match tc with
    | .Function ps r => (Ty.Function (td :: ps) r, env2)
    | t => (Ty.Function [td] t, env2)

/-- `annoToTypeAux` over argument lists. -/
def annoListToType : List String → List Anno → List Ty × List String
  | env, [] => ([], env)
  | env, a :: rest =>
    let (t, env1) := annoToTypeAux env a
    let (ts, env2) := annoListToType env1 rest
    (t :: ts, env2)
end

/-- The Type denoted by a signature. -/
def annoToType (a : Anno) : Ty :=
  (annoToTypeAux [] a).1

/-- Modelled from the spec: a top-level value declaration — name,
parameter patterns, body, and the optional type signature above it. -/
structure Decl where
  name : String
  params : List String
  body : Expr
  signature : Option Anno

/-- Modelled from the spec: inference of a parameterless body for the
declaration-level scenario — a parameter reference takes the parameter's
variable; an unresolvable identifier yields `Unknown` (inference proceeds
optimistically around it); a numeric literal defaults to `Int`. -/
def inferDeclBody (env : InferEnv) : Expr → Ty
  | .intLit _ => tyInt
  | .varRef n => (envLookup env n).getD Ty.Unknown
  | _ => Ty.Unknown

/-- Modelled from the spec: the Type `findType` reports for a top-level
declaration.  A declared signature is authoritative (the scenario's
code-action consumer reads the signature's Type back); without one the
body is inferred, parameters receiving fresh type variables. -/
def declInfer (d : Decl) : Ty :=
  match d.signature with
  | some a => annoToType a
  | none =>
    let paramVars := d.params.enum.map fun (i, _) => Ty.Var i
    let env := d.params.enum.map fun (i, p) => (p, Ty.Var i)
    let bodyTy := inferDeclBody env d.body
    if d.params.isEmpty then bodyTy else Ty.Function paramVars bodyTy

mutual
/-- Number of unresolved components (type variables, `Unknown`,
`InProgressBinding` placeholders, row variables) in a Type. -/
def countUnresolved : Ty → Nat
  | .Var _ => 1
  | .Unit => 0
  | .Tuple ts => countUnresolvedList ts
  | .Record fs row => countUnresolvedFields fs + (if row.isSome then 1 else 0)
  | .Function ps r => countUnresolvedList ps + countUnresolved r
  | .Union _ _ args => countUnresolvedList args
  | .Unknown => 1
  | .InProgressBinding => 1

/-- `countUnresolved` over a list of Types. -/
def countUnresolvedList : List Ty → Nat
  | [] => 0
  | t :: ts => countUnresolved t + countUnresolvedList ts

/-- `countUnresolved` over record fields. -/
def countUnresolvedFields : List (String × Ty) → Nat
  | [] => 0
  | (_, t) :: fs => countUnresolved t + countUnresolvedFields fs
end

/-- The scenario's starting declaration: `outer = something`, no
signature. -/
def outerBefore : Decl :=
  { name := "outer", params := [], body := .varRef "something", signature := none }

/-- The scenario's declaration after the code action applied the signature
`outer : something -> number` and added the parameter `something`. -/
def outerAfter : Decl :=
  { name := "outer", params := ["something"], body := .varRef "something"
    signature := some (.arrow (.var "something") (.var "number")) }

/-- Rendering of a type variable: letters `a`–`z`, a numeric suffix past
`z`. -/
def varRender (n : Nat) : String :=
  let c := Char.ofNat (97 + n % 26)
  if n < 26 then String.singleton c
  else String.singleton c ++ toString (n / 26)

/-- The opening brace character (record syntax). -/
def lbraceChar : Char := Char.ofNat 123

/-- The closing brace character (record syntax). -/
def rbraceChar : Char := Char.ofNat 125

mutual
/-- Modelled from the spec: `typeToString(type)` — render a Type in the
surface syntax the language accepts in a type annotation
(`Maybe String -> Int`, `( Int, String )`, record braces with
`field : Type` pairs). -/
def typeToString : Ty → String
  | .Var n => varRender n
  | .Unit => "()"
  | .Tuple ts => "( " ++ commaSep ts ++ " )"
  | .Record fs row =>
    match row with
    | none =>
      if fs.isEmpty then String.singleton lbraceChar ++ String.singleton rbraceChar
      else String.singleton lbraceChar ++ " " ++ fieldsRender fs ++ " " ++
        String.singleton rbraceChar
    | some r =>
      String.singleton lbraceChar ++ " " ++ varRender r ++ " | " ++ fieldsRender fs ++
        " " ++ String.singleton rbraceChar
  | .Function ps ret => arrowParams ps ++ typeToString ret
  | .Union _ n args => n ++ unionArgs args
  | .Unknown => "Unknown"
  | .InProgressBinding => "InProgressBinding"

/-- Comma-separated rendering of tuple components. -/
def commaSep : List Ty → String
  | [] => ""
  | [t] => typeToString t
  | t :: ts => typeToString t ++ ", " ++ commaSep ts

/-- Rendering of record fields. -/
def fieldsRender : List (String × Ty) → String
  | [] => ""
  | [(n, t)] => n ++ " : " ++ typeToString t
  | (n, t) :: fs => n ++ " : " ++ typeToString t ++ ", " ++ fieldsRender fs

/-- Rendering of the parameter prefix of a function type, each parameter
followed by an arrow; nested function parameters are parenthesized. -/
def arrowParams : List Ty → String
  | [] => ""
  | .Function ps r :: rest =>
    "(" ++ arrowParams ps ++ typeToString r ++ ")" ++ " -> " ++ arrowParams rest
  | t :: rest => typeToString t ++ " -> " ++ arrowParams rest

/-- Rendering of a union's type arguments, each preceded by a space;
arguments that are themselves applied unions or functions are
parenthesized. -/
def unionArgs : List Ty → String
  | [] => ""
  | .Union m n (a :: as') :: rest =>
    " (" ++ typeToString (Ty.Union m n (a :: as')) ++ ")" ++ unionArgs rest
  | .Function ps r :: rest =>
    " (" ++ arrowParams ps ++ typeToString r ++ ")" ++ unionArgs rest
  | t :: rest => " " ++ typeToString t ++ unionArgs rest
end

/-- Tokens of the type-annotation surface syntax. -/
inductive TypeTok where
  | lpar
  | rpar
  | lbrace
  | rbrace
  | comma
  | colon
  | pipe
  | arrow
  | ident (s : String)
deriving Repr, DecidableEq

/-- Characters allowed inside a type-annotation identifier. -/
def isIdentChar (c : Char) : Bool :=
  c.isAlphanum || c == '.' || c == '_'

/-- Tokenizer for the type-annotation surface syntax (fuelled; each step
consumes at least one character, so the input length suffices). -/
def tokenizeTypeText : Nat → List Char → Option (List TypeTok)
  | 0, _ => none
  | _, [] => some []
  | fuel + 1, c :: rest =>
    if c = ' ' then tokenizeTypeText fuel rest
    else if c = '(' then (tokenizeTypeText fuel rest).map (.lpar :: ·)
    else if c = ')' then (tokenizeTypeText fuel rest).map (.rpar :: ·)
    else if c = lbraceChar then (tokenizeTypeText fuel rest).map (.lbrace :: ·)
    else if c = rbraceChar then (tokenizeTypeText fuel rest).map (.rbrace :: ·)
    else if c = ',' then (tokenizeTypeText fuel rest).map (.comma :: ·)
    else if c = ':' then (tokenizeTypeText fuel rest).map (.colon :: ·)
    else if c = '|' then (tokenizeTypeText fuel rest).map (.pipe :: ·)
    else if c = '-' then
      match rest with
      | '>' :: rest2 => (tokenizeTypeText fuel rest2).map (.arrow :: ·)
      | _ => none
    else if isIdentChar c then
      let nm := c :: rest.takeWhile isIdentChar
      (tokenizeTypeText fuel (rest.dropWhile isIdentChar)).map (.ident (String.mk nm) :: ·)
    else none

/-- Modelled name resolution for re-parsing an annotation: the defining
module of the well-known core type names; any other name is its own
module (single-segment modules whose principal type carries the module's
name, as `Maybe.Maybe`). -/
def coreModuleOf (name : String) : String :=
  if name = "Int" || name = "Float" || name = "Bool" || name = "Order" ||
     name = "Never" || name = "number" then "Basics"
  else name

/-- An applied constructor name denoted as a Type. -/
def mkUnionOfName (name : String) (args : List Ty) : Ty :=
  Ty.Union (coreModuleOf name) name args

/-- A parsed lowercase name denoted as a type variable (single letters
only — the inverse of `varRender` on the first alphabet). -/
def varOfName (s : String) : Option Ty :=
  if s = "number" then some (Ty.Union "Basics" "number" [])
  else
    match s.data with
    | [c] => if c.isLower then some (Ty.Var (c.toNat - 97)) else none
    | _ => none

/-- Whether an identifier starts a constructor name. -/
def isUpperName (s : String) : Bool :=
  match s.data with
  | c :: _ => c.isUpper
  | [] => false

/-- A right-nested arrow flattened into the engine's `Function` shape. -/
def mkArrowTy (dom : Ty) (cod : Ty) : Ty :=
  match cod with
  | .Function ps r => .Function (dom :: ps) r
  | t => .Function [dom] t

mutual
/-- Recursive-descent parser for type annotations: arrow level. -/
def parseTypeExpr : Nat → List TypeTok → Option (Ty × List TypeTok)
  | 0, _ => none
  | fuel + 1, toks =>
    (parseAppExpr fuel toks).bind fun (t1, rest) =>
      match rest with
      | .arrow :: rest2 =>
        (parseTypeExpr fuel rest2).map fun (t2, rest3) => (mkArrowTy t1 t2, rest3)
      | _ => some (t1, rest)

/-- Application level: a constructor name applied to zero or more atoms,
or a single atom. -/
def parseAppExpr : Nat → List TypeTok → Option (Ty × List TypeTok)
  | 0, _ => none
  | fuel + 1, toks =>
    match toks with
    | .ident s :: rest =>
      if isUpperName s then
        match parseAtoms fuel rest with
        | (args, rest2) => some (mkUnionOfName s args, rest2)
      else (varOfName s).map fun t => (t, rest)
    | _ => parseAtom fuel toks

/-- Atom level: a bare name, a unit/tuple/parenthesized type, or a
record. -/
def parseAtom : Nat → List TypeTok → Option (Ty × List TypeTok)
  | 0, _ => none
  | fuel + 1, toks =>
    match toks with
    | .ident s :: rest =>
      if isUpperName s then some (mkUnionOfName s [], rest)
      else (varOfName s).map fun t => (t, rest)
    | .lpar :: .rpar :: rest => some (.Unit, rest)
    | .lpar :: rest =>
      (parseTypeExpr fuel rest).bind fun (t, rest2) =>
        match rest2 with
        | .rpar :: rest3 => some (t, rest3)
        | .comma :: rest3 =>
          (parseTupleRest fuel rest3).map fun (ts, rest4) => (.Tuple (t :: ts), rest4)
        | _ => none
    | .lbrace :: .rbrace :: rest => some (.Record [] none, rest)
    | .lbrace :: rest =>
      (parseFields fuel rest).bind fun (fs, rest2) =>
        match rest2 with
        | .rbrace :: rest3 => some (.Record fs none, rest3)
        | _ => none
    | _ => none

/-- Zero or more atoms (the arguments of an applied constructor). -/
def parseAtoms : Nat → List TypeTok → List Ty × List TypeTok
  | 0, toks => ([], toks)
  | fuel + 1, toks =>
    match parseAtom fuel toks with
    | some (t, rest) =>
      match parseAtoms fuel rest with
      | (ts, rest2) => (t :: ts, rest2)
    | none => ([], toks)

/-- The remaining components of a tuple after its first comma. -/
def parseTupleRest : Nat → List TypeTok → Option (List Ty × List TypeTok)
  | 0, _ => none
  | fuel + 1, toks =>
    (parseTypeExpr fuel toks).bind fun (t, rest) =>
      match rest with
      | .comma :: rest2 =>
        (parseTupleRest fuel rest2).map fun (ts, rest3) => (t :: ts, rest3)
      | .rpar :: rest2 => some ([t], rest2)
      | _ => none

/-- One or more `name : Type` record fields separated by commas. -/
def parseFields : Nat → List TypeTok → Option (List (String × Ty) × List TypeTok)
  | 0, _ => none
  | fuel + 1, toks =>
    match toks with
    | .ident n :: .colon :: rest =>
      (parseTypeExpr fuel rest).bind fun (t, rest2) =>
        match rest2 with
        | .comma :: rest3 =>
          (parseFields fuel rest3).map fun (fs, rest4) => ((n, t) :: fs, rest4)
        | _ => some ([(n, t)], rest2)
    | _ => none
end

/-- Parse a whole type-annotation text into the Type it denotes. -/
def parseTypeAnno (s : String) : Option Ty :=
  (tokenizeTypeText (s.data.length + 1) s.data).bind fun toks =>
    (parseTypeExpr (4 * toks.length + 8) toks).bind fun (t, rest) =>
      if rest.isEmpty then some t else none

/-- The round-trip representative of shape `Function`:
`Maybe String -> Int`. -/
def repFunction : Ty :=
  Ty.Function [Ty.Union "Maybe" "Maybe" [Ty.Union "String" "String" []]]
    (Ty.Union "Basics" "Int" [])

/-- The round-trip representative of shape `Union` with arguments:
`Maybe Int`. -/
def repUnionWithArgs : Ty :=
  Ty.Union "Maybe" "Maybe" [Ty.Union "Basics" "Int" []]

/-- The round-trip representative of shape `Record`:
`{ x : Int, y : String }`. -/
def repRecord : Ty :=
  Ty.Record [("x", Ty.Union "Basics" "Int" []), ("y", Ty.Union "String" "String" [])] none

/-- The round-trip representative of shape `Tuple`: `( Int, String )`. -/
def repTuple : Ty :=
  Ty.Tuple [Ty.Union "Basics" "Int" [], Ty.Union "String" "String" []]

/-- Concrete string-literal argument node used by the evaluation
fixtures. -/
def argNodeW : SyntaxNode := .mk "string_constant_expr" "\"hi\"" 2 14 []

/-- Concrete call-target node used by the evaluation fixtures. -/
def targetNodeW : SyntaxNode := .mk "value_expr" "suiteTest" 2 4 []

/-- Concrete `function_call_expr` node used by the evaluation fixtures. -/
def callNodeW : SyntaxNode :=
  .mk "function_call_expr" "suiteTest \"hi\"" 2 4 [targetNodeW, argNodeW]

/-- The expression `findExpr` maps `callNodeW` to. -/
def callExprW : EFunctionCallExpr := ⟨callNodeW, targetNodeW, [argNodeW]⟩

/-- A node containing no function-call expression. -/
def plainNodeW : SyntaxNode := .mk "value_expr" "x" 0 0 []

/-- A concrete type checker for the evaluation fixtures: every node's type
is the union `Test.Internal.Test` and every type renders as `String`. -/
def tcW : TypeChecker :=
  { findType := fun _ => Ty.Union "Test.Internal" "Test" []
    typeToString := fun _ => "String"
    getQualifierForName := fun _ _ _ => none
    findImportModuleNameNodes := fun _ _ => [] }

/-- A concrete test source file for the evaluation fixtures. -/
def sfW : SourceFileData :=
  { uri := "file:///proj/tests/MainTest.elm", isTestFile := true
    tree := .mk "file" "" 0 0 [] }

/-- The suite the fixtures' call produces. -/
def suiteW : TestSuite :=
  .mk "hi" none "file:///proj/tests/MainTest.elm" (2, 4)

/-- A workspace Program rooted at `/proj` used by the routing fixtures. -/
def progW : ProgramModel := { rootPath := "/proj", files := [], typeChecker := tcW }

/-- A concrete exec error used by the `execCmd` fixtures. -/
def execErrW : ExecError := { message := "boom", code := some 1 }

/-- `execCmd` scenario: error exit, not killed, `showMessageOnError`
unset. -/
def scRejectW : ExecCmdScenario :=
  { cmd := "elm --version", showMessageOnError := false, notFoundText := none
    isWindows := false, wasKilledByUs := false, error := some execErrW
    stdout := "", stderr := "" }

/-- `execCmd` scenario: error exit, not killed, `showMessageOnError`
set. -/
def scShowW : ExecCmdScenario :=
  { cmd := "elm --version", showMessageOnError := true, notFoundText := none
    isWindows := false, wasKilledByUs := false, error := some execErrW
    stdout := "", stderr := "" }

/-! ## Helper lemmas -/

/-- The last element of a list is a member. -/
theorem mem_of_getLast?_eq_some {α : Type} {l : List α} {a : α}
    (h : l.getLast? = some a) : a ∈ l := by
  induction l with
  | nil => simp [List.getLast?] at h
  | cons x t ih =>
    cases t with
    | nil => simp_all [List.getLast?]
    | cons y u =>
      rw [List.getLast?_cons_cons] at h
      exact List.mem_cons_of_mem _ (ih h)

/-- A node with no descendants of kind `t` is not of kind `t` itself and
its children have none either. -/
theorem nodeDesc_empty_parts {n : SyntaxNode} {t : String}
    (h : nodeDescendantsOfType n t = []) :
    n.type ≠ t ∧ listDescendantsOfType n.children t = [] := by
  cases n with
  | mk ty tx r c cs =>
    unfold nodeDescendantsOfType at h
    rcases List.append_eq_nil.mp h with ⟨h1, h2⟩
    constructor
    · intro hty
      simp only [SyntaxNode.type] at hty
      rw [if_pos hty] at h1
      exact List.cons_ne_nil _ _ h1
    · simpa [SyntaxNode.children] using h2

/-- Children of a list with no descendants of kind `t` have none each. -/
theorem nodeDesc_empty_of_mem {ns : List SyntaxNode} {t : String}
    (h : listDescendantsOfType ns t = []) :
    ∀ c ∈ ns, nodeDescendantsOfType c t = [] := by
  induction ns with
  | nil => intro c hc; cases hc
  | cons x xs ih =>
    unfold listDescendantsOfType at h
    rcases List.append_eq_nil.mp h with ⟨h1, h2⟩
    intro c hc
    rcases List.mem_cons.mp hc with rfl | hc'
    · exact h1
    · exact ih h2 c hc'

/-- An expression mapping that yields a let-in expression determines the
node and its body: the body is the node's last named child. -/
theorem letIn_of_map {m : SyntaxNode} {e : ELetInExpr}
    (h : (mapSyntaxNodeToExpression m).bind asLetInExpr = some e) :
    e.node = m ∧ m.children.getLast? = some e.body := by
  unfold mapSyntaxNodeToExpression at h
  split_ifs at h with h1 h2 h3 h4 h5
  · simp [asLetInExpr] at h
  · simp [asLetInExpr] at h
  · simp [asLetInExpr] at h
  · cases hm : m.children with
    | nil => rw [hm] at h; simp [asLetInExpr] at h
    | cons a l => rw [hm] at h; simp [asLetInExpr] at h
  · cases hm : m.children.getLast? with
    | none => rw [hm] at h; simp [asLetInExpr] at h
    | some b =>
      rw [hm] at h
      simp only [Option.some_bind, asLetInExpr, Option.some.injEq] at h
      cases h
      exact ⟨rfl, by simp [hm]⟩
  · simp [asLetInExpr] at h

/-- The body that `findChildLetInExpr` finds inherits "no descendants of
kind `t`" from the node it was found in. -/
theorem findChildLetInExpr_body_desc {n : SyntaxNode} {t : String} {e : ELetInExpr}
    (hfind : findChildLetInExpr (some n) = some e)
    (h : nodeDescendantsOfType n t = []) :
    nodeDescendantsOfType e.body t = [] := by
  simp only [findChildLetInExpr] at hfind
  rcases nodeDesc_empty_parts h with ⟨-, hlist⟩
  by_cases hty : n.type == "let_in_expr"
  · rw [if_pos hty] at hfind
    simp only [Option.some_bind] at hfind
    rcases letIn_of_map hfind with ⟨-, hbody⟩
    exact nodeDesc_empty_of_mem hlist _ (mem_of_getLast?_eq_some hbody)
  · rw [if_neg hty] at hfind
    cases hc : findFirstNamedChildOfType "let_in_expr" n with
    | none => rw [hc] at hfind; simp at hfind
    | some c =>
      rw [hc] at hfind
      simp only [Option.some_bind] at hfind
      rcases letIn_of_map hfind with ⟨-, hbody⟩
      have hcmem : c ∈ n.children := List.mem_of_find?_eq_some hc
      have hcdesc : nodeDescendantsOfType c t = [] :=
        nodeDesc_empty_of_mem hlist c hcmem
      rcases nodeDesc_empty_parts hcdesc with ⟨-, hclist⟩
      exact nodeDesc_empty_of_mem hclist _ (mem_of_getLast?_eq_some hbody)

/-- A node with no `function_call_expr` descendant yields no function-call
expression. -/
theorem findFunctionCallExpr_none {n : SyntaxNode}
    (h : nodeDescendantsOfType n "function_call_expr" = []) :
    findFunctionCallExpr (some n) = none := by
  unfold findFunctionCallExpr
  rcases nodeDesc_empty_parts h with ⟨hty, -⟩
  have hb : (n.type == "function_call_expr") = false := by
    simpa using hty
  simp [hb, h]

/-- Decoding label parts preserves the number of parts. -/
theorem decodeLabelList_length {ts : List String} {ls : List String}
    (h : decodeLabelList ts = some ls) : ts.length = ls.length := by
  induction ts generalizing ls with
  | nil => simp [decodeLabelList] at h; simp [← h]
  | cons t rest ih =>
    unfold decodeLabelList at h
    cases h1 : stringLiteralToLabel t with
    | none => rw [h1] at h; simp at h
    | some l =>
      rw [h1] at h
      cases h2 : decodeLabelList rest with
      | none => rw [h2] at h; simp at h
      | some ls' =>
        rw [h2] at h
        simp only [Option.some.injEq] at h
        subst h
        simpa using ih h2

/-- Filtering for test files is idempotent. -/
theorem filter_isTestFile_idem (l : List SourceFileData) :
    (l.filter fun sf => sf.isTestFile).filter (fun sf => sf.isTestFile) =
      l.filter fun sf => sf.isTestFile := by
  induction l with
  | nil => rfl
  | cons a t ih =>
    cases h : a.isTestFile <;> simp [List.filter_cons, h, ih]

/-- A list with no trailing slash character is unchanged by
`dropTrailingSlashChars`. -/
theorem dropTrailingSlashChars_eq_self {l : List Char}
    (h2 : l.getLast? ≠ some '/') : dropTrailingSlashChars l = l := by
  unfold dropTrailingSlashChars
  cases hr : l.reverse with
  | nil =>
    rw [List.reverse_eq_nil_iff.mp hr]
    rfl
  | cons c t =>
    have hc : c ≠ '/' := by
      intro hc
      apply h2
      rw [← List.head?_reverse, hr, hc]
      rfl
    rw [List.dropWhile_cons, if_neg (by simpa using hc), ← hr,
      List.reverse_reverse]

/-! ## Claim theorems -/

/-- C3: for a file defining `outer = something` with no type signature,
inference gives `outer` a Type containing exactly one unresolved component;
after applying the signature `outer : something -> number` and adding the
parameter `something`, re-inferring `outer` yields
`Function([Var], Union("Basics","number",[]))`. -/
theorem addParameter_e2e_types :
    countUnresolved (declInfer outerBefore) = 1 ∧
    declInfer outerAfter = Ty.Function [Ty.Var 0] (Ty.Union "Basics" "number" []) :=
  ⟨rfl, rfl⟩

/-- C5: for representative Types of the shapes Function, Union-with-args,
Record and Tuple, the text `typeToString` produces re-parses as a type
annotation denoting a Type structurally equal to the original. -/
theorem typeToString_roundTrip :
    parseTypeAnno (typeToString repFunction) = some repFunction ∧
    parseTypeAnno (typeToString repUnionWithArgs) = some repUnionWithArgs ∧
    parseTypeAnno (typeToString repRecord) = some repRecord ∧
    parseTypeAnno (typeToString repTuple) = some repTuple :=
  ⟨rfl, rfl, rfl, rfl⟩

/-- C6: inference over the self-recursive binding
`f x = if x <= 0 then 0 else f (x - 1)` terminates with `Int -> Int`; the
binding's slot is pre-seeded with the InProgressBinding placeholder, and
the in-body self-reference is handled through it rather than as a cycle
error (inference succeeds). -/
theorem selfRecursiveBinding_infersIntToInt :
    envLookup (bindingEnv "f" ["x"]) "f" = some Ty.InProgressBinding ∧
    inferBinding "f" ["x"] selfRecursiveBody = some (Ty.Function [tyInt] tyInt) :=
  ⟨rfl, rfl⟩

/-- C4: calling `findType` twice on the same node with no Forest mutation
in between returns an identical Type both times, and the second call is
answered from the TypeCache — it performs no new inference work (the
inference-run counter does not move). -/
theorem findType_idempotent_cached (eng : InferenceEngine) (s : CheckerState) (n : Nat) :
    TypeCheckerModel.findType eng (TypeCheckerModel.findType eng s n).2 n =
      ((TypeCheckerModel.findType eng s n).1, (TypeCheckerModel.findType eng s n).2) ∧
    (TypeCheckerModel.findType eng (TypeCheckerModel.findType eng s n).2 n).2.inferenceRuns =
      (TypeCheckerModel.findType eng s n).2.inferenceRuns := by
  have key : TypeCheckerModel.findType eng (TypeCheckerModel.findType eng s n).2 n =
      ((TypeCheckerModel.findType eng s n).1, (TypeCheckerModel.findType eng s n).2) := by
    cases h : cacheLookup s.typeCache n with
    | some t =>
      have h1 : TypeCheckerModel.findType eng s n = (t, s) := by
        unfold TypeCheckerModel.findType
        rw [h]
      rw [h1]
      unfold TypeCheckerModel.findType
      rw [h]
    | none =>
      have h1 : TypeCheckerModel.findType eng s n =
          ((cacheLookup (eng.inferDeclaration (eng.enclosingDeclaration n)) n).getD Ty.Unknown,
            ⟨(n, (cacheLookup (eng.inferDeclaration (eng.enclosingDeclaration n)) n).getD
                Ty.Unknown) :: eng.inferDeclaration (eng.enclosingDeclaration n) ++ s.typeCache,
              s.inferenceRuns + 1⟩) := by
        unfold TypeCheckerModel.findType
        rw [h]
      rw [h1]
      unfold TypeCheckerModel.findType
      simp [cacheLookup, List.find?]
  exact ⟨key, by rw [key]⟩

/-- C7: `findAllTestSuites(program)` only produces suites derived from
source files whose `isTestFile` flag is true — restricting the Forest to
its test files leaves the result unchanged, so files with `isTestFile`
false contribute no suite, whatever the Forest contents. -/
theorem findAllTestSuites_only_test_files (program : ProgramModel) :
    findAllTestSuites program =
      findAllTestSuites
        { program with files := program.files.filter (fun sf => sf.isTestFile) } := by
  unfold findAllTestSuites ProgramModel.getForest
  simp only [if_pos]
  rw [filter_isTestFile_idem]

/-- C2: `isTestFile(filename, rootPath)` returns true iff the filename, as
text, begins with the path formed by joining `rootPath` with `"tests"`;
for a non-empty root path without a trailing separator that joined path is
literally `<workspaceRoot>/tests`. -/
theorem isTestFile_prefix_spec (filename rootPath : String)
    (h1 : rootPath.data ≠ []) (h2 : rootPath.data.getLast? ≠ some '/') :
    (isTestFile filename rootPath = true ↔
      (pathJoin rootPath "tests").data.isPrefixOf filename.data = true) ∧
    pathJoin rootPath "tests" = rootPath ++ "/tests" := by
  constructor
  · unfold isTestFile
    cases hb : (pathJoin rootPath "tests").data.isPrefixOf filename.data <;> simp [hb]
  · have ht := dropTrailingSlashChars_eq_self h2
    unfold pathJoin
    rw [if_neg h1]
    simp only [ht]
    rw [if_neg h1]
    apply String.ext
    rw [String.data_append]

/-- Witness for `isTestFile_prefix_spec` at `filename = /w/tests/Main.elm`,
`rootPath = /w`. -/
theorem isTestFile_prefix_spec_witness :
    ("/w".data ≠ [] ∧ "/w".data.getLast? ≠ some '/') ∧
    ((isTestFile "/w/tests/Main.elm" "/w" = true ↔
        (pathJoin "/w" "tests").data.isPrefixOf "/w/tests/Main.elm".data = true) ∧
      pathJoin "/w" "tests" = "/w" ++ "/tests") :=
  ⟨⟨by decide, by decide⟩,
    isTestFile_prefix_spec "/w/tests/Main.elm" "/w" (by decide) (by decide)⟩

/-- C1 counterexample: a Program rooted at `/proj` whose root path is a
strict prefix of the queried folder `/proj/sub`.  The claim says the query
is routed to that Program (prefix match) and that a no-match surfaces to
the caller as the named workspace-not-found failure; the handler instead
routes by string equality — finding nothing — and its catch block hands the
caller the generic `ResponseError(13, "Error finding tests")`, which
carries no URI. -/
theorem findTests_prefix_routing_counterexample :
    "/proj".data.isPrefixOf "/proj/sub".data = true ∧
    findTestsInner [progW] "/proj/sub" = .error ⟨"/proj/sub"⟩ ∧
    onFindTestsRequest [progW] "/proj/sub" = .genericError 13 "Error finding tests" :=
  ⟨by decide, rfl, rfl⟩

/-- C1 (amended): the find-tests request is routed to the Program whose
root path string-equals the project folder URI; when none matches, the
named `NoWorkspaceContainsError` carrying the offending URI is thrown
inside the handler, but the caller receives the generic
`ResponseError(13, "Error finding tests")` produced by the catch block. -/
theorem findTests_routing_amended (elmWorkspaces : List ProgramModel) (uri : String) :
    (∀ program, elmWorkspaces.find? (fun q => q.rootPath == uri) = some program →
      onFindTestsRequest elmWorkspaces uri = .response (findAllTestSuites program)) ∧
    (elmWorkspaces.find? (fun q => q.rootPath == uri) = none →
      findTestsInner elmWorkspaces uri = .error ⟨uri⟩ ∧
      onFindTestsRequest elmWorkspaces uri = .genericError 13 "Error finding tests") := by
  constructor
  · intro program h
    unfold onFindTestsRequest findTestsInner
    rw [h]
  · intro h
    constructor
    · unfold findTestsInner
      rw [h]
    · unfold onFindTestsRequest findTestsInner
      rw [h]

/-- Witness for `findTests_routing_amended`: routing by equality succeeds
at `/proj`; at `/proj/sub` the named error is raised internally and the
caller sees the generic response error. -/
theorem findTests_routing_amended_witness :
    onFindTestsRequest [progW] "/proj" = .response (findAllTestSuites progW) ∧
    (findTestsInner [progW] "/proj/sub" = .error ⟨"/proj/sub"⟩ ∧
      onFindTestsRequest [progW] "/proj/sub" = .genericError 13 "Error finding tests") :=
  ⟨(findTests_routing_amended [progW] "/proj").1 progW (by rfl),
    (findTests_routing_amended [progW] "/proj/sub").2 (by rfl)⟩

/-- C8: the promise `execCmd` returns rejects with the exec error iff the
child process exits with an error while `kill()` was never called on the
handle and `showMessageOnError` is not set; with `showMessageOnError` set
and an error exit (not killed by us), the promise neither resolves nor
rejects and an error message is shown on the connection instead. -/
theorem execCmd_rejection_spec (sc : ExecCmdScenario) :
    (∀ err, (handleExit sc).promise = .rejected err ↔
      (sc.error = some err ∧ sc.wasKilledByUs = false ∧ sc.showMessageOnError = false)) ∧
    (sc.showMessageOnError = true → sc.wasKilledByUs = false →
      ∀ err, sc.error = some err →
        (handleExit sc).promise = .pending ∧ (handleExit sc).shownMessages ≠ []) := by
  obtain ⟨cmd, smoe, nft, iw, killed, error, so, se⟩ := sc
  constructor
  · intro err
    cases killed <;> cases smoe <;> cases error
    all_goals simp [handleExit]
    all_goals split_ifs
    all_goals simp
  · intro hs hk err herr
    subst hs; subst hk
    cases error with
    | none => simp at herr
    | some e =>
      simp [handleExit]
      split_ifs <;> simp

/-- Witness for `execCmd_rejection_spec`: a concrete error exit rejects
when `showMessageOnError` is unset, and with it set the promise stays
pending while a message is shown. -/
theorem execCmd_rejection_spec_witness :
    ((handleExit scRejectW).promise = .rejected execErrW ↔
      (scRejectW.error = some execErrW ∧ scRejectW.wasKilledByUs = false ∧
        scRejectW.showMessageOnError = false)) ∧
    ((handleExit scShowW).promise = .pending ∧ (handleExit scShowW).shownMessages ≠ []) :=
  ⟨(execCmd_rejection_spec scRejectW).1 execErrW,
    (execCmd_rejection_spec scShowW).2 rfl rfl execErrW rfl⟩

/-- `findTestFunctionCallF` at any fuel: a returned call's type is the
`Test.Internal.Test` union or a function returning it, and a node with no
function-call descendant returns nothing. -/
theorem findTestFunctionCallF_spec : ∀ (fuel : Nat) (node : SyntaxNode) (tc : TypeChecker),
    (∀ call, findTestFunctionCallF fuel node tc = some call →
      (isTestFunctionType (tc.findType call.node) ||
        isTestUnionType (tc.findType call.node)) = true) ∧
    (nodeDescendantsOfType node "function_call_expr" = [] →
      findTestFunctionCallF fuel node tc = none) := by
  intro fuel
  induction fuel with
  | zero =>
    intro node tc
    constructor
    · intro call h
      simp [findTestFunctionCallF] at h
    · intro _
      rfl
  | succ fuel ih =>
    intro node tc
    constructor
    · intro call h
      unfold findTestFunctionCallF at h
      cases hle : findChildLetInExpr (some node) with
      | some e =>
        rw [hle] at h
        exact (ih e.body tc).1 call h
      | none =>
        rw [hle] at h
        cases hfc : findFunctionCallExpr (some node) with
        | none =>
          rw [hfc] at h
          simp at h
        | some c =>
          rw [hfc] at h
          dsimp only at h
          split_ifs at h with hf hu
          · cases h
            simp [hf]
          · cases h
            simp [hu]
    · intro hdesc
      unfold findTestFunctionCallF
      cases hle : findChildLetInExpr (some node) with
      | some e =>
        exact (ih e.body tc).2 (findChildLetInExpr_body_desc hle hdesc)
      | none =>
        rw [findFunctionCallExpr_none hdesc]

/-- C9: `findTestFunctionCall(node, typeChecker)` returns either nothing or
a function-call expression whose type, as reported by the checker's
`findType`, is the union `Test.Internal.Test` or a function returning that
union; in particular it returns nothing whenever the node contains no
function-call expression. -/
theorem findTestFunctionCall_sound (node : SyntaxNode) (tc : TypeChecker) :
    (∀ call, findTestFunctionCall node tc = some call →
      (isTestFunctionType (tc.findType call.node) ||
        isTestUnionType (tc.findType call.node)) = true) ∧
    (nodeDescendantsOfType node "function_call_expr" = [] →
      findTestFunctionCall node tc = none) :=
  findTestFunctionCallF_spec (nodeSize node) node tc

/-- Witness for `findTestFunctionCall_sound`: the fixture call node is
found and has the test union type; the plain value node contains no
function call and yields nothing. -/
theorem findTestFunctionCall_sound_witness :
    (isTestFunctionType (tcW.findType callExprW.node) ||
      isTestUnionType (tcW.findType callExprW.node)) = true ∧
    findTestFunctionCall plainNodeW tcW = none :=
  ⟨(findTestFunctionCall_sound callNodeW tcW).1 callExprW (by rfl),
    (findTestFunctionCall_sound plainNodeW tcW).2 (by rfl)⟩

/-- A defined suite label comes from a unique string-constant part of the
first `String`-typed argument, decoded by `stringLiteralToLabel`. -/
theorem suiteLabel_inversion (call : EFunctionCallExpr) (tc : TypeChecker) (lbl : String)
    (h : suiteLabel call tc = some lbl) :
    ∃ arg, findFirstStringArg call tc = some arg ∧
      ∃ cs, findAllStringConstants (some arg) = some [cs] ∧
        stringLiteralToLabel cs.text = some lbl := by
  unfold suiteLabel at h
  cases hparts : suiteLabelParts call tc with
  | none =>
    rw [hparts] at h
    simp at h
  | some parts =>
    rw [hparts] at h
    dsimp only at h
    split_ifs at h with hlen
    have hlen1 : parts.length = 1 := by simpa using hlen
    have hparts_eq : parts = [lbl] := by
      cases parts with
      | nil => simp at hlen1
      | cons a t =>
        cases t with
        | nil =>
          simp only [List.head?_cons, Option.some.injEq] at h
          rw [h]
        | cons b u => simp at hlen1
    subst hparts_eq
    unfold suiteLabelParts at hparts
    cases hfsa : findFirstStringArg call tc with
    | none =>
      rw [hfsa] at hparts
      simp [findAllStringConstants] at hparts
    | some arg =>
      rw [hfsa] at hparts
      simp only [findAllStringConstants, Option.some_bind] at hparts
      have hlen2 : ((nodeDescendantsOfType arg "string_constant_expr").filterMap
          (fun d => (mapSyntaxNodeToExpression d).bind asStringConstant)).length = 1 := by
        have := decodeLabelList_length hparts
        simpa using this
      obtain ⟨cs, hcs⟩ : ∃ cs, (nodeDescendantsOfType arg "string_constant_expr").filterMap
          (fun d => (mapSyntaxNodeToExpression d).bind asStringConstant) = [cs] := by
        cases hes : (nodeDescendantsOfType arg "string_constant_expr").filterMap
            (fun d => (mapSyntaxNodeToExpression d).bind asStringConstant) with
        | nil => rw [hes] at hlen2; simp at hlen2
        | cons a t =>
          rw [hes] at hlen2
          cases t with
          | nil => exact ⟨a, rfl⟩
          | cons b u => simp at hlen2
      rw [hcs] at hparts
      refine ⟨arg, rfl, cs, ?_, ?_⟩
      · simp [findAllStringConstants, hcs]
      · simp only [List.map_cons, List.map_nil] at hparts
        unfold decodeLabelList at hparts
        cases hdec : stringLiteralToLabel cs.text with
        | none => rw [hdec] at hparts; simp at hparts
        | some l =>
          rw [hdec] at hparts
          simp [decodeLabelList] at hparts
          rw [hparts]

/-- `findTestSuiteF` at any fuel: a produced suite's label is the defined
`suiteLabel` and its position is the call node's start position. -/
theorem findTestSuiteF_some_spec (fuel : Nat) (call : EFunctionCallExpr)
    (sourceFile : SourceFileData) (tc : TypeChecker) (suite : TestSuite)
    (h : findTestSuiteF fuel (some call) sourceFile tc = some suite) :
    suiteLabel call tc = some suite.label ∧
    suite.position = (call.node.startRow, call.node.startCol) := by
  cases fuel with
  | zero => simp [findTestSuiteF] at h
  | succ fuel =>
    unfold findTestSuiteF at h
    dsimp only at h
    cases hlab : suiteLabel call tc with
    | none =>
      rw [hlab] at h
      simp at h
    | some lbl =>
      rw [hlab] at h
      dsimp only at h
      split_ifs at h with h0 hd
      · cases hle : findListExpr (call.args.get? 1) with
        | none =>
          rw [hle] at h
          simp at h
        | some la =>
          rw [hle] at h
          dsimp only at h
          cases h
          exact ⟨rfl, rfl⟩
      · cases h
        exact ⟨rfl, rfl⟩

/-- C10: `findTestSuite(call, sourceFile, typeChecker)` returns nothing
when `call` is undefined; otherwise it returns a suite only when the first
argument of the call whose type renders as `String` contains exactly one
string-literal part, and any returned suite's label is that literal decoded
as a JSON string while its position is exactly the call node's start row
and column. -/
theorem findTestSuite_spec (sourceFile : SourceFileData) (tc : TypeChecker) :
    findTestSuite none sourceFile tc = none ∧
    (∀ call suite, findTestSuite (some call) sourceFile tc = some suite →
      ∃ arg, findFirstStringArg call tc = some arg ∧
        ∃ cs, findAllStringConstants (some arg) = some [cs] ∧
          stringLiteralToLabel cs.text = some suite.label ∧
          suite.position = (call.node.startRow, call.node.startCol)) := by
  constructor
  · rfl
  · intro call suite h
    obtain ⟨hlab, hpos⟩ :=
      findTestSuiteF_some_spec (nodeSize call.node) call sourceFile tc suite h
    obtain ⟨arg, hfsa, cs, hcs, hdec⟩ := suiteLabel_inversion call tc suite.label hlab
    exact ⟨arg, hfsa, cs, hcs, hdec, hpos⟩

/-- Witness for `findTestSuite_spec`: the fixture call yields the suite
labelled `hi` at the call's position, with its single string-literal
argument decoded. -/
theorem findTestSuite_spec_witness :
    findTestSuite none sfW tcW = none ∧
    (∃ arg, findFirstStringArg callExprW tcW = some arg ∧
      ∃ cs, findAllStringConstants (some arg) = some [cs] ∧
        stringLiteralToLabel cs.text = some suiteW.label ∧
        suiteW.position = (callExprW.node.startRow, callExprW.node.startCol)) :=
  ⟨(findTestSuite_spec sfW tcW).1,
    (findTestSuite_spec sfW tcW).2 callExprW suiteW (by rfl)⟩
